import Mathlib

/-
Verification of the Camera session core of the openeb SDK driver
(`sdk/modules/driver/cpp/src/camera.cpp`, `camera_generation.cpp`).

The C++ code is shallowly embedded: the pimpl state of `Camera::Private`
becomes an explicit record, the acquisition pump and the real-time emulator
become recursive functions over the sequence of poll results handed back by
the Event Stream Source, and the observable side effects (decoder calls,
raw-buffer callbacks, sleeps, anchor assignments, callback invocations)
are collected in traces.
-/

namespace OpenEB

/-! ## CameraGeneration (`camera_generation.cpp`)

`CameraGeneration::Private` holds `short major_, minor_`; the comparison
operators of the outer class delegate to the pimpl operators verbatim, so a
single set of definitions embeds both layers.  `short` is embedded as `Int`
(no arithmetic is performed, only comparisons, so no overflow is possible). -/

structure CameraGeneration where
  major : Int
  minor : Int
deriving DecidableEq, Repr

namespace CameraGeneration

/-- `operator==`: `major_ == c.major_ && minor_ == c.minor_`. -/
def eqOp (a b : CameraGeneration) : Bool :=
  a.major == b.major && a.minor == b.minor

/-- `operator!=`: `!(*this == c)`. -/
def neOp (a b : CameraGeneration) : Bool :=
  !(eqOp a b)

/-- `operator<`: `major_ < c.major_ || (major_ == c.major_ && minor_ < c.minor_)`. -/
def ltOp (a b : CameraGeneration) : Bool :=
  decide (a.major < b.major) || (a.major == b.major && decide (a.minor < b.minor))

/-- `operator<=`: `(*this == c) || (*this < c)`. -/
def leOp (a b : CameraGeneration) : Bool :=
  eqOp a b || ltOp a b

/-- `operator>`: `!(*this <= c)`. -/
def gtOp (a b : CameraGeneration) : Bool :=
  !(leOp a b)

/-- `operator>=`: `(*this == c) || (*this > c)`. -/
def geOp (a b : CameraGeneration) : Bool :=
  eqOp a b || gtOp a b

end CameraGeneration

/-! ## Camera session core (`camera.cpp`)

The pimpl state of `Camera::Private`.  Callback maps are embedded as the
lists of their registered identifiers (a snapshot of the map keys is all the
pump ever iterates over); the handlers themselves are external and their
invocations are recorded in traces.  `threads_spawned` counts executions of
the `run_thread_ = std::thread(...)` statement, so "no second thread is
spawned" is expressible.  `first_ts` / `first_ts_clock` are the members
`first_ts_` (a `timestamp`, i.e. `int64_t`) and `first_ts_clock_`
(`uint64_t`) used by the real-time emulator. -/

inductive CameraErrorCode where
  | CameraNotInitialized
  | CameraNotFound
  | DataTransferFailed
  | FileDoesNotExist
  | NotARegularFile
  | WrongExtension
  | InvalidRawfile
  | CouldNotOpenFile
  | IBoardIdentificationNotFound
deriving DecidableEq, Repr

inductive CameraStatus where
  | STARTED
  | STOPPED
deriving DecidableEq, Repr

inductive RunThreadStatus where
  | STARTED
  | RUNNING
  | STOPPED
deriving DecidableEq, Repr

structure CameraState where
  is_init : Bool
  from_file : Bool
  emulate_rt : Bool
  has_device : Bool
  thread_joinable : Bool
  threads_spawned : Nat
  camera_is_started : Bool
  is_running : Bool
  run_thread_status : RunThreadStatus
  is_recording : Bool
  status_cbs : List Nat
  error_cbs : List Nat
  first_ts : Int
  first_ts_clock : Nat
deriving DecidableEq, Repr

/-- `Camera::Private::set_is_running`: when the stored flag differs from the
argument it is updated and every status-change callback of the snapshot is
invoked with `STARTED`/`STOPPED`; otherwise nothing happens.  The returned
list records the invocations `(callback id, status passed)` in order. -/
def set_is_running (s : CameraState) (is_running : Bool) :
    CameraState × List (Nat × CameraStatus) :=
  if s.is_running ≠ is_running then
    ({ s with is_running := is_running },
      s.status_cbs.map fun id =>
        (id, if is_running then CameraStatus.STARTED else CameraStatus.STOPPED))
  else
    (s, [])

/-- `Camera::Private::start`: throws `CameraNotInitialized` when not
initialized; returns `false` leaving the state untouched when the run thread
is already joinable; otherwise clears `camera_is_started_`, spawns the run
thread, sets `is_running` via `set_is_running true` (firing status
callbacks), marks the run-thread status `STARTED` and returns `true`.
The two busy-waits of the C++ code synchronize with the spawned thread and
change no session state, so they have no counterpart here. -/
def start (s : CameraState) :
    Except CameraErrorCode (Bool × CameraState × List (Nat × CameraStatus)) :=
  if s.is_init = false then .error .CameraNotInitialized
  else if s.thread_joinable then .ok (false, s, [])
  else
    let s1 := { s with camera_is_started := false, thread_joinable := true,
                       threads_spawned := s.threads_spawned + 1 }
    let p := set_is_running s1 true
    .ok (true, { p.1 with run_thread_status := RunThreadStatus.STARTED }, p.2)

/-- Observable steps taken by `Camera::Private::stop` after it has committed
to stopping (the run thread is joinable). -/
inductive StopAct where
  | waitRunning
  | setStatusStopped
  | setRunningFalse
  | streamStop
  | deviceStop
  | threadJoin
  | stopRecordingAct
deriving DecidableEq, Repr

/-- `Camera::Private::stop`: throws when not initialized; returns `false`
when no run thread is joinable; otherwise waits for the run-thread status to
reach `RUNNING`, sets it to `STOPPED`, forces `is_running` false (firing
status callbacks), stops the events stream, stops the device control
facility when present, joins the thread, and only then stops any active
recording (`stop_recording` clears `is_recording_` and closes the raw log).
The returned trace records these steps in program order. -/
def stop (s : CameraState) (has_device_control : Bool) :
    Except CameraErrorCode (Bool × CameraState × List StopAct × List (Nat × CameraStatus)) :=
  if s.is_init = false then .error .CameraNotInitialized
  else if s.thread_joinable = false then .ok (false, s, [], [])
  else
    let s1 := { s with run_thread_status := RunThreadStatus.STOPPED }
    let p := set_is_running s1 false
    let s2 := { p.1 with thread_joinable := false, is_recording := false }
    .ok (true, s2,
      [StopAct.waitRunning, StopAct.setStatusStopped, StopAct.setRunningFalse,
        StopAct.streamStop]
        ++ (if has_device_control then [StopAct.deviceStop] else [])
        ++ [StopAct.threadJoin, StopAct.stopRecordingAct],
      p.2)

/-! ## Opening a RAW file (`Camera::Private::open_raw_file`)

The filesystem and `DeviceDiscovery` are external collaborators; they enter
the model as the observable properties of the supplied path (existence,
regular-file status, extension as reported by `boost::filesystem::extension`,
which includes the leading dot) and as the outcomes of
`DeviceDiscovery::open_raw_file` and the board-identification lookup.
The trace records whether a device was opened. -/

structure RawFilePath where
  fs_exists : Bool
  is_regular_file : Bool
  extension : String
deriving DecidableEq, Repr

inductive FileAct where
  | deviceOpen
deriving DecidableEq, Repr

/-- `Camera::Private::open_raw_file`: stops a joinable previous session,
marks the session initialized, then checks in order that the path exists
(`FileDoesNotExist`), is a regular file (`NotARegularFile`) and has the
`.raw` extension (`WrongExtension`); only after all three checks does it ask
`DeviceDiscovery` to open the file (`InvalidRawfile` on a null device), set
`from_file_`/`emulate_real_time_` and look up the board identification. -/
def open_raw_file (s : CameraState) (has_device_control : Bool) (p : RawFilePath)
    (reproduce_camera_behavior open_returns_device board_id_present : Bool) :
    Except CameraErrorCode CameraState × List FileAct :=
  let s0 :=
    if s.is_init ∧ s.thread_joinable then
      match stop s has_device_control with
      | .ok r => r.2.1
      | .error _ => s
    else s
  let s1 := { s0 with is_init := true }
  if p.fs_exists = false then (.error CameraErrorCode.FileDoesNotExist, [])
  else if p.is_regular_file = false then (.error CameraErrorCode.NotARegularFile, [])
  else if p.extension ≠ ".raw" then (.error CameraErrorCode.WrongExtension, [])
  else if open_returns_device = false then
    (.error CameraErrorCode.InvalidRawfile, [FileAct.deviceOpen])
  else
    let s2 := { s1 with from_file := true, emulate_rt := reproduce_camera_behavior,
                        has_device := true }
    if board_id_present = false then
      (.error CameraErrorCode.IBoardIdentificationNotFound, [FileAct.deviceOpen])
    else (.ok s2, [FileAct.deviceOpen])

/-! ## The acquisition pump (`run`, `run_main_loop`, `end_run`)

The Event Stream Source enters the model as the list of results its
`wait_next_buffer` calls produce over the run, each paired with the byte
count `get_latest_raw_data` reports for that iteration.  An exhausted list
models `is_running_` having been set false by `stop()` (the loop condition
`while (is_running_)` failing).  For each processed buffer the observable
effects are recorded as actions tagged with the buffer's iteration index,
so equal byte ranges of different buffers stay distinguishable. -/

inductive Act where
  | decode (buf off len : Nat)
  | raw (cb : Nat) (buf off len : Nat)
  | sleepFor (us : Nat)
  | anchorSet (ts : Int) (clk : Nat)
deriving DecidableEq, Repr

/-- Body of the non-emulated `res > 0` branch of `run_main_loop`: the buffer
is decoded (dispatching the typed-event callbacks) only when the decode
callback tag count is non-zero, and afterwards every raw-data callback is
invoked with the same byte range. -/
def processBufferLive (tag_count : Nat) (raw_cbs : List Nat) (buf n : Nat) : List Act :=
  (if tag_count ≠ 0 then [Act.decode buf 0 n] else [])
    ++ raw_cbs.map fun cb => Act.raw cb buf 0 n

/-- `Camera::Private::run_main_loop` in the non-emulated path: repeatedly
poll; a negative result breaks out of the loop immediately and becomes the
loop result; a positive result processes the buffer; zero polls again.  The
accumulator `res` is the C++ local `res`, whose last value is returned when
`is_running_` turns false (here: when the poll list is exhausted). -/
def run_main_loop (tag_count : Nat) (raw_cbs : List Nat) :
    List (Int × Nat) → Nat → Int → Int × List Act
  | [], _, res => (res, [])
  | (r, n) :: rest, buf, _ =>
    if r < 0 then (r, [])
    else
      let acts := if 0 < r then processBufferLive tag_count raw_cbs buf n else []
      let p := run_main_loop tag_count raw_cbs rest (buf + 1) r
      (p.1, acts ++ p.2)

/-- `Camera::Private::run_from_file`: starts the events stream, runs the main
loop, and converts its result through `if (!run_main_loop(...)) return false;
return true;` — an `int`-to-`bool`-to-`int` conversion mapping `0` to `0`
and every non-zero result (including `-1`) to `1`. -/
def run_from_file (tag_count : Nat) (raw_cbs : List Nat) (polls : List (Int × Nat)) :
    Int × List Act :=
  let p := run_main_loop tag_count raw_cbs polls 0 0
  (if p.1 = 0 then 0 else 1, p.2)

/-- `Camera::Private::run_from_camera`: identical result conversion to
`run_from_file`; the extra device-control start/reset calls touch only the
external device. -/
def run_from_camera (tag_count : Nat) (raw_cbs : List Nat) (polls : List (Int × Nat)) :
    Int × List Act :=
  let p := run_main_loop tag_count raw_cbs polls 0 0
  (if p.1 = 0 then 0 else 1, p.2)

/-- `Camera::Private::end_run`: invokes every runtime-error callback with a
`DataTransferFailed` error exactly when `run_output == -1`, then forces
`is_running` false through `set_is_running`. -/
def end_run (s : CameraState) (run_output : Int) :
    CameraState × List (Nat × CameraErrorCode) × List (Nat × CameraStatus) :=
  let errs := if run_output = -1 then
      s.error_cbs.map (fun id => (id, CameraErrorCode.DataTransferFailed))
    else []
  let p := set_is_running s false
  (p.1, errs, p.2)

/-- Outcome of one execution of the pump thread body `Camera::Private::run`. -/
structure RunOutcome where
  state : CameraState
  loop_res : Int
  end_run_arg : Int
  acts : List Act
  error_events : List (Nat × CameraErrorCode)
  status_events : List (Nat × CameraStatus)
deriving Repr

/-- `Camera::Private::run`: dispatches to `run_from_file` or
`run_from_camera` and hands the converted result to `end_run`.
`loop_res` is the raw result of `run_main_loop`, `end_run_arg` the value
`end_run` actually receives. -/
def run (s : CameraState) (tag_count : Nat) (raw_cbs : List Nat)
    (polls : List (Int × Nat)) : RunOutcome :=
  let p := if s.from_file then run_from_file tag_count raw_cbs polls
           else run_from_camera tag_count raw_cbs polls
  let q := end_run { s with run_thread_status := RunThreadStatus.RUNNING } p.1
  { state := q.1,
    loop_res := (run_main_loop tag_count raw_cbs polls 0 0).1,
    end_run_arg := p.1,
    acts := p.2,
    error_events := q.2.1,
    status_events := q.2.2 }

/-! ## The real-time emulator (`Camera::Private::emulate_real_time`)

External collaborators enter as oracles: `last_ts p` is what the decoder's
`get_last_timestamp()` returns once the first `p` bytes of the polled buffer
have been decoded, and `clock j` is what `get_system_time_us()` returns at
its `j`-th call during this buffer.  With the constant
`reading_speed_factor = 1.`, the double arithmetic of the source is exact
(`round(1024 * 1.) = 1024`, `(1 / 1.) * d = d` for every timestamp
difference below `2^53` microseconds, i.e. about 285 years), so it is
embedded as integer arithmetic.  `uint64_t` wrap-around in
`first_ts_clock_ + diff` is kept explicit via `% 2^64`. -/

structure EmuEnv where
  raw_cbs : List Nat
  last_ts : Nat → Int
  clock : Nat → Nat
  raw_event_size : Nat
  buf : Nat

/-- `bytes_step_to_decode`:
`max(min_events_per_buffer_to_decode, raw_event_size * round(1024 * 1.))`
with `min_events_per_buffer_to_decode = 128` and
`events_per_buffer_to_decode = 1024`. -/
def bytes_step_to_decode (raw_event_size : Nat) : Nat :=
  max 128 (raw_event_size * 1024)

/-- The deferred anchoring step: `if (first_ts_clock_ == 0 && cur_ts !=
first_ts_) { first_ts_clock_ = cur_ts_clock; first_ts_ = cur_ts; }`.
The boolean reports whether the assignment happened. -/
def anchor_update (s : CameraState) (cur_ts : Int) (cur_ts_clock : Nat) :
    CameraState × Bool :=
  if s.first_ts_clock = 0 ∧ cur_ts ≠ s.first_ts then
    ({ s with first_ts_clock := cur_ts_clock, first_ts := cur_ts }, true)
  else (s, false)

/-- `const uint64_t expected_ts = first_ts_clock_ + diff;` computed in
`uint64_t` arithmetic (the signed `diff` is converted and the sum wraps
modulo `2^64`). -/
def expected_ts (first_ts_clock : Nat) (diff : Int) : Nat :=
  (((first_ts_clock : Int) + diff) % (2 ^ 64 : Int)).toNat

/-- One iteration of the emulator's sub-buffer loop: decode the sub-buffer
`[off, off+len)` (dispatching typed-event callbacks), invoke every raw-data
callback with the same range, read the decoder timestamp and the wall
clock, run the deferred anchoring step, and sleep for
`expected_ts - cur_ts_clock` microseconds when the wall clock has not yet
reached `expected_ts`. -/
def emu_process_sub_buffer (env : EmuEnv) (s : CameraState) (off len k : Nat) :
    CameraState × List Act :=
  let dispatch := Act.decode env.buf off len ::
    env.raw_cbs.map fun cb => Act.raw cb env.buf off len
  let cur_ts := env.last_ts (off + len)
  let cur_ts_clock := env.clock k
  let p := anchor_update s cur_ts cur_ts_clock
  let diff : Int := cur_ts - p.1.first_ts
  let expected := expected_ts p.1.first_ts_clock diff
  let anchor_acts := if p.2 then [Act.anchorSet cur_ts cur_ts_clock] else []
  let sleep_acts := if cur_ts_clock < expected then
      [Act.sleepFor (expected - cur_ts_clock)] else []
  (p.1, dispatch ++ anchor_acts ++ sleep_acts)

/-- The emulator's `for (; ev_buffer < ev_buffer_end && is_running_;
ev_buffer += bytes_to_decode)` loop: `off` is the distance consumed so far,
`n` the buffer byte count, `k` the number of sub-buffers already handled,
and each iteration takes `bytes_to_decode = min(remains,
bytes_step_to_decode)` bytes.  `is_running_` is pump-local in the sequential
model and never changes during the loop. -/
def emulate_loop (env : EmuEnv) (n : Nat) (s : CameraState) (off k : Nat) :
    CameraState × List Act :=
  if _h : off < n ∧ s.is_running = true then
    let len := min (n - off) (bytes_step_to_decode env.raw_event_size)
    let p := emu_process_sub_buffer env s off len k
    let q := emulate_loop env n p.1 (off + len) (k + 1)
    (q.1, p.2 ++ q.2)
  else (s, [])
termination_by n - off
decreasing_by
  simp only [bytes_step_to_decode]
  omega

/-- `Camera::Private::emulate_real_time` applied to one polled buffer of
`n` raw bytes. -/
def emulate_real_time (env : EmuEnv) (s : CameraState) (n : Nat) :
    CameraState × List Act :=
  emulate_loop env n s 0 0

/-- `Camera::Private::init_clocks`, executed once at the head of
`run_main_loop`: `first_ts_ = i_decoder_->get_last_timestamp();
first_ts_clock_ = 0;`. -/
def init_clocks (s : CameraState) (decoder_last_ts : Int) : CameraState :=
  { s with first_ts := decoder_last_ts, first_ts_clock := 0 }

/-- The consecutive sub-buffer ranges `(offset, length)` the emulator's
chunking arithmetic produces for a buffer of `n` bytes, starting at `off`. -/
def chunkRanges (step n off : Nat) : List (Nat × Nat) :=
  if _h : off < n ∧ 0 < step then
    (off, min (n - off) step) :: chunkRanges step n (off + min (n - off) step)
  else []
termination_by n - off
decreasing_by omega

/-- The `(offset, length)` ranges handed to the decoder, in order. -/
def decodeRanges (l : List Act) : List (Nat × Nat) :=
  l.filterMap fun a =>
    match a with
    | Act.decode _ off len => some (off, len)
    | _ => none

/-- The sleep actions of a trace, in order. -/
def sleepActs (l : List Act) : List Act :=
  l.filter fun a =>
    match a with
    | Act.sleepFor _ => true
    | _ => false

/-- The anchor-assignment actions of a trace, in order. -/
def anchorActs (l : List Act) : List Act :=
  l.filter fun a =>
    match a with
    | Act.anchorSet _ _ => true
    | _ => false

/-- A concrete emulator environment used by witnesses: one-byte events, a
decoder timestamp that jumps from 0 to 5 after the first 1024 bytes, and a
wall clock starting at 100 microseconds. -/
def demoEmuEnv : EmuEnv :=
  { raw_cbs := [], last_ts := fun p => if p ≤ 1024 then 0 else 5,
    clock := fun j => 100 + j, raw_event_size := 1, buf := 0 }

/-- A concrete running file-replay session state used by witnesses. -/
def demoRunningState : CameraState :=
  { is_init := true, from_file := true, emulate_rt := true,
    has_device := true, thread_joinable := true, threads_spawned := 1,
    camera_is_started := true, is_running := true,
    run_thread_status := RunThreadStatus.RUNNING, is_recording := false,
    status_cbs := [], error_cbs := [], first_ts := 0, first_ts_clock := 0 }

/-! ## Theorems -/

/-- C10: the six comparison operators of `CameraGeneration` implement the
strict lexicographic order on the (major, minor) pair: `==` is componentwise
equality, `<` is the lexicographic strict order, `<=` is `< ∨ ==`,
`>` is `¬ <=`, `>=` is `> ∨ ==`, `!=` is `¬ ==`, and for all `a b` exactly
one of `a < b`, `a == b`, `a > b` holds. -/
theorem C10_camera_generation_lexicographic (a b : CameraGeneration) :
    (CameraGeneration.eqOp a b = true ↔ (a.major = b.major ∧ a.minor = b.minor)) ∧
    (CameraGeneration.neOp a b = true ↔ ¬ CameraGeneration.eqOp a b = true) ∧
    (CameraGeneration.ltOp a b = true ↔
      (a.major < b.major ∨ (a.major = b.major ∧ a.minor < b.minor))) ∧
    (CameraGeneration.leOp a b = true ↔
      (CameraGeneration.ltOp a b = true ∨ CameraGeneration.eqOp a b = true)) ∧
    (CameraGeneration.gtOp a b = true ↔ ¬ CameraGeneration.leOp a b = true) ∧
    (CameraGeneration.geOp a b = true ↔
      (CameraGeneration.gtOp a b = true ∨ CameraGeneration.eqOp a b = true)) ∧
    ((CameraGeneration.ltOp a b = true ∧ ¬ CameraGeneration.eqOp a b = true ∧
        ¬ CameraGeneration.gtOp a b = true) ∨
     (CameraGeneration.eqOp a b = true ∧ ¬ CameraGeneration.ltOp a b = true ∧
        ¬ CameraGeneration.gtOp a b = true) ∨
     (CameraGeneration.gtOp a b = true ∧ ¬ CameraGeneration.ltOp a b = true ∧
        ¬ CameraGeneration.eqOp a b = true)) := by
  simp only [CameraGeneration.eqOp, CameraGeneration.neOp, CameraGeneration.ltOp,
    CameraGeneration.leOp, CameraGeneration.gtOp, CameraGeneration.geOp,
    Bool.and_eq_true, Bool.or_eq_true, Bool.not_eq_true', Bool.not_eq_true,
    beq_iff_eq, decide_eq_true_eq, Bool.and_eq_false_iff, Bool.or_eq_false_iff,
    Bool.not_eq_false, bne_iff_ne, ne_eq, decide_eq_false_iff_not, beq_eq_false_iff_ne]
  refine ⟨?_, ?_, ?_, ?_, ?_, ?_, ?_⟩ <;> first | omega | tauto

/-- `set_is_running` touches only the `is_running` flag: every other field
of the state is preserved (here: the fields the lifecycle claims need). -/
theorem set_is_running_preserves (s : CameraState) (b : Bool) :
    (set_is_running s b).1.thread_joinable = s.thread_joinable ∧
    (set_is_running s b).1.threads_spawned = s.threads_spawned ∧
    (set_is_running s b).1.first_ts = s.first_ts ∧
    (set_is_running s b).1.first_ts_clock = s.first_ts_clock := by
  unfold set_is_running
  split <;> exact ⟨rfl, rfl, rfl, rfl⟩

/-- C2: on an initialized session, `start()` with an already joinable run
thread returns `false` with the session state completely unchanged (in
particular no new thread is spawned); `start()` with no run thread spawns
exactly one thread and returns `true`. -/
theorem C2_start_idempotent_failure (s : CameraState) (h : s.is_init = true) :
    (s.thread_joinable = true →
      start s = .ok (false, s, [])) ∧
    (s.thread_joinable = false →
      ∃ r, start s = .ok r ∧ r.1 = true ∧
        r.2.1.thread_joinable = true ∧
        r.2.1.threads_spawned = s.threads_spawned + 1) := by
  constructor
  · intro hj
    simp [start, h, hj]
  · intro hj
    simp only [start, h, hj, Bool.true_eq_false, if_false, Bool.false_eq_true, if_neg,
      not_false_iff]
    refine ⟨_, rfl, rfl, ?_, ?_⟩
    · exact (set_is_running_preserves _ true).1
    · exact (set_is_running_preserves _ true).2.1

/-- Witness for C2 at a concrete initialized state. -/
theorem C2_start_idempotent_failure_witness :
    let s : CameraState :=
      { is_init := true, from_file := false, emulate_rt := false,
        has_device := true, thread_joinable := true, threads_spawned := 1,
        camera_is_started := true, is_running := true,
        run_thread_status := RunThreadStatus.RUNNING, is_recording := false,
        status_cbs := [0], error_cbs := [], first_ts := 0, first_ts_clock := 0 }
    s.is_init = true ∧ s.thread_joinable = true ∧ start s = .ok (false, s, []) :=
  ⟨rfl, rfl, (C2_start_idempotent_failure _ rfl).1 rfl⟩

/-- C3: `set_is_running` called with the value `is_running` already holds
invokes no status-change callback and leaves the state unchanged; called
with the opposite value it flips the flag and invokes every registered
status-change callback exactly once, with `STARTED` on the false→true edge
and `STOPPED` on the true→false edge. -/
theorem C3_status_callbacks_on_edges (s : CameraState) (b : Bool) :
    (s.is_running = b → set_is_running s b = (s, [])) ∧
    (s.is_running ≠ b →
      (set_is_running s b).1 = { s with is_running := b } ∧
      (set_is_running s b).2 = s.status_cbs.map (fun id =>
        (id, if b then CameraStatus.STARTED else CameraStatus.STOPPED)) ∧
      (s.status_cbs.Nodup → ∀ id, id ∈ s.status_cbs →
        (((set_is_running s b).2.map Prod.fst).count id) = 1)) := by
  constructor
  · intro hb
    simp [set_is_running, hb]
  · intro hb
    refine ⟨by simp [set_is_running, hb], by simp [set_is_running, hb], ?_⟩
    intro hnd id hid
    have hmap : ((set_is_running s b).2.map Prod.fst) = s.status_cbs := by
      unfold set_is_running
      rw [if_pos hb]
      simp only [List.map_map]
      exact List.map_congr_left (fun a _ => rfl) |>.trans (List.map_id _)
    rw [hmap]
    exact List.count_eq_one_of_mem hnd hid

/-- Witness for C3: a state holding `is_running = false` with two registered
status callbacks, transitioned to `true`. -/
theorem C3_status_callbacks_on_edges_witness :
    let s : CameraState :=
      { is_init := true, from_file := false, emulate_rt := false,
        has_device := true, thread_joinable := false, threads_spawned := 0,
        camera_is_started := false, is_running := false,
        run_thread_status := RunThreadStatus.STARTED, is_recording := false,
        status_cbs := [3, 7], error_cbs := [], first_ts := 0, first_ts_clock := 0 }
    s.is_running ≠ true ∧
    (set_is_running s true).2 =
      [(3, CameraStatus.STARTED), (7, CameraStatus.STARTED)] ∧
    ((set_is_running s true).2.map Prod.fst).count 3 = 1 :=
  ⟨by decide,
   ((C3_status_callbacks_on_edges _ true).2 (by decide)).2.1,
   ((C3_status_callbacks_on_edges _ true).2 (by decide)).2.2 (by decide) 3 (by decide)⟩

/-- C8: a successful `stop()` performs the thread join strictly before
stopping the recording, and stops the recording exactly once. -/
theorem C8_recording_stopped_after_join (s : CameraState) (hdc : Bool)
    (hinit : s.is_init = true) (hj : s.thread_joinable = true) :
    ∃ r, stop s hdc = .ok r ∧ r.1 = true ∧
      ∃ i j, i < j ∧ r.2.2.1.get? i = some StopAct.threadJoin ∧
        r.2.2.1.get? j = some StopAct.stopRecordingAct ∧
        r.2.2.1.count StopAct.stopRecordingAct = 1 := by
  simp only [stop, hinit, hj, Bool.true_eq_false, if_false]
  refine ⟨_, rfl, rfl, ?_⟩
  cases hdc
  · exact ⟨4, 5, by omega, by simp, by simp, by simp⟩
  · exact ⟨5, 6, by omega, by simp, by simp, by simp⟩

/-- Witness for C8 at a concrete running session with a device control
facility. -/
theorem C8_recording_stopped_after_join_witness :
    let s : CameraState :=
      { is_init := true, from_file := false, emulate_rt := false,
        has_device := true, thread_joinable := true, threads_spawned := 1,
        camera_is_started := true, is_running := true,
        run_thread_status := RunThreadStatus.RUNNING, is_recording := true,
        status_cbs := [], error_cbs := [], first_ts := 0, first_ts_clock := 0 }
    s.is_init = true ∧ s.thread_joinable = true ∧
    ∃ r, stop s true = .ok r ∧ r.1 = true ∧
      ∃ i j, i < j ∧ r.2.2.1.get? i = some StopAct.threadJoin ∧
        r.2.2.1.get? j = some StopAct.stopRecordingAct ∧
        r.2.2.1.count StopAct.stopRecordingAct = 1 :=
  ⟨rfl, rfl, C8_recording_stopped_after_join _ true rfl rfl⟩

/-- C9: opening a session from a recorded file reports configuration errors
synchronously and before any device is opened: a missing path yields
`FileDoesNotExist`, a non-regular file yields `NotARegularFile`, and an
extension other than `.raw` yields `WrongExtension`, in each case with an
empty device trace; conversely a device is only ever opened after all three
checks have passed. -/
theorem C9_open_raw_file_errors (s : CameraState) (hdc : Bool) (p : RawFilePath)
    (rep oo bip : Bool) :
    (p.fs_exists = false →
      open_raw_file s hdc p rep oo bip = (.error CameraErrorCode.FileDoesNotExist, [])) ∧
    (p.fs_exists = true → p.is_regular_file = false →
      open_raw_file s hdc p rep oo bip = (.error CameraErrorCode.NotARegularFile, [])) ∧
    (p.fs_exists = true → p.is_regular_file = true → p.extension ≠ ".raw" →
      open_raw_file s hdc p rep oo bip = (.error CameraErrorCode.WrongExtension, [])) ∧
    (FileAct.deviceOpen ∈ (open_raw_file s hdc p rep oo bip).2 →
      p.fs_exists = true ∧ p.is_regular_file = true ∧ p.extension = ".raw") := by
  refine ⟨?_, ?_, ?_, ?_⟩
  · intro h1
    simp [open_raw_file, h1]
  · intro h1 h2
    simp [open_raw_file, h1, h2]
  · intro h1 h2 h3
    simp [open_raw_file, h1, h2, h3]
  · intro hmem
    by_cases h1 : p.fs_exists = true
    · by_cases h2 : p.is_regular_file = true
      · by_cases h3 : p.extension = ".raw"
        · exact ⟨h1, h2, h3⟩
        · simp [open_raw_file, h1, h2, h3] at hmem
      · have h2f : p.is_regular_file = false := by
          cases hrf : p.is_regular_file
          · rfl
          · exact absurd hrf h2
        simp [open_raw_file, h1, h2f] at hmem
    · have h1f : p.fs_exists = false := by
        cases hfe : p.fs_exists
        · rfl
        · exact absurd hfe h1
      simp [open_raw_file, h1f] at hmem

/-- Witness for C9: a fresh session opened on a path with the wrong
extension, and on a missing path. -/
theorem C9_open_raw_file_errors_witness :
    let s : CameraState :=
      { is_init := false, from_file := false, emulate_rt := false,
        has_device := false, thread_joinable := false, threads_spawned := 0,
        camera_is_started := false, is_running := false,
        run_thread_status := RunThreadStatus.STOPPED, is_recording := false,
        status_cbs := [], error_cbs := [], first_ts := 0, first_ts_clock := 0 }
    open_raw_file s false ⟨true, true, ".dat"⟩ false true true =
      (.error CameraErrorCode.WrongExtension, []) ∧
    open_raw_file s false ⟨false, true, ".raw"⟩ false true true =
      (.error CameraErrorCode.FileDoesNotExist, []) :=
  ⟨(C9_open_raw_file_errors _ false ⟨true, true, ".dat"⟩ false true true).2.2.1
      rfl rfl (by decide),
   (C9_open_raw_file_errors _ false ⟨false, true, ".raw"⟩ false true true).1 rfl⟩

/-- C1 (code evaluated at the failing input): a live-mode session with one
registered runtime-error callback whose first poll returns `-1`.  The main
loop exits with result `-1` (a stream failure), yet `run_from_camera`
converts it to `1`, `end_run` receives `1` instead of `-1`, and consequently
no runtime-error callback is invoked; `is_running` is still forced false.
This contradicts the claim (and `end_run`'s own `run_output == -1` branch,
which is unreachable): the callbacks were to fire exactly on a negative
loop exit. -/
theorem C1_runtime_error_callbacks_never_fire :
    let s : CameraState :=
      { is_init := true, from_file := false, emulate_rt := false,
        has_device := true, thread_joinable := true, threads_spawned := 1,
        camera_is_started := true, is_running := true,
        run_thread_status := RunThreadStatus.RUNNING, is_recording := false,
        status_cbs := [], error_cbs := [0], first_ts := 0, first_ts_clock := 0 }
    let o := run s 1 [] [(-1, 0)]
    o.loop_res = -1 ∧ o.end_run_arg = 1 ∧ o.error_events = [] ∧
      o.state.is_running = false ∧
      (end_run s (-1)).2.1 = [(0, CameraErrorCode.DataTransferFailed)] := by
  refine ⟨rfl, rfl, rfl, rfl, rfl⟩

/-! ### Structural lemmas about the emulator's chunking -/

theorem bytes_step_pos (raw_event_size : Nat) : 0 < bytes_step_to_decode raw_event_size :=
  lt_of_lt_of_le (by norm_num) (le_max_left _ _)

theorem decodeRanges_append (a b : List Act) :
    decodeRanges (a ++ b) = decodeRanges a ++ decodeRanges b :=
  List.filterMap_append _ _ _

theorem decodeRanges_raw_map (raws : List Nat) (b o l : Nat) :
    decodeRanges (raws.map fun cb => Act.raw cb b o l) = [] := by
  induction raws with
  | nil => rfl
  | cons hd tl ih => simp [decodeRanges, ih]

/-- `emu_process_sub_buffer` leaves `is_running` untouched. -/
theorem emu_process_sub_buffer_is_running (env : EmuEnv) (s : CameraState)
    (off len k : Nat) :
    (emu_process_sub_buffer env s off len k).1.is_running = s.is_running := by
  unfold emu_process_sub_buffer anchor_update
  dsimp only
  split <;> rfl

/-- One sub-buffer iteration decodes exactly its own range. -/
theorem emu_process_sub_buffer_decodeRanges (env : EmuEnv) (s : CameraState)
    (off len k : Nat) :
    decodeRanges (emu_process_sub_buffer env s off len k).2 = [(off, len)] := by
  unfold emu_process_sub_buffer
  dsimp only
  rw [show (Act.decode env.buf off len ::
      env.raw_cbs.map fun cb => Act.raw cb env.buf off len) =
      [Act.decode env.buf off len] ++ env.raw_cbs.map fun cb => Act.raw cb env.buf off len
    from rfl]
  rw [decodeRanges_append, decodeRanges_append, decodeRanges_append,
    decodeRanges_raw_map]
  have h1 : decodeRanges [Act.decode env.buf off len] = [(off, len)] := rfl
  rw [h1]
  have h2 : ∀ b : Bool, decodeRanges
      (if b then [Act.anchorSet (env.last_ts (off + len)) (env.clock k)] else []) = [] := by
    intro b
    cases b <;> rfl
  have h3 : ∀ c : Prop, ∀ inst : Decidable c, ∀ u : Nat, decodeRanges
      (if c then [Act.sleepFor u] else []) = [] := by
    intro c inst u
    split <;> rfl
  rw [h2, h3]
  rfl

/-- The decoder sees exactly the chunk ranges, in order. -/
theorem emulate_loop_decodeRanges (env : EmuEnv) (n : Nat) (s : CameraState)
    (off k : Nat) (hrun : s.is_running = true) :
    decodeRanges (emulate_loop env n s off k).2 =
      chunkRanges (bytes_step_to_decode env.raw_event_size) n off := by
  rw [emulate_loop, chunkRanges]
  by_cases hc : off < n
  · rw [dif_pos ⟨hc, hrun⟩, dif_pos ⟨hc, bytes_step_pos env.raw_event_size⟩]
    dsimp only
    rw [decodeRanges_append, emu_process_sub_buffer_decodeRanges,
      emulate_loop_decodeRanges env n _ _ _
        (by rw [emu_process_sub_buffer_is_running]; exact hrun)]
    rfl
  · rw [dif_neg (by exact fun h => hc h.1), dif_neg (by exact fun h => hc h.1)]
    rfl
termination_by n - off
decreasing_by
  have := bytes_step_pos env.raw_event_size
  omega

theorem chunkRanges_head (step n off : Nat) (hc : off < n) (hs : 0 < step) :
    (chunkRanges step n off).get? 0 = some (off, min (n - off) step) := by
  rw [chunkRanges, dif_pos ⟨hc, hs⟩]
  rfl

/-- Consecutive chunks: each chunk begins where the previous one ended, and
every chunk that has a successor is full (`step` bytes). -/
theorem chunkRanges_consecutive (step n off : Nat) (hs : 0 < step) :
    ∀ i r r2, (chunkRanges step n off).get? i = some r →
      (chunkRanges step n off).get? (i + 1) = some r2 →
      r2.1 = r.1 + r.2 ∧ r.2 = step := by
  intro i r r2 h1 h2
  rw [chunkRanges] at h1 h2
  by_cases hc : off < n
  · rw [dif_pos ⟨hc, hs⟩] at h1 h2
    cases i with
    | zero =>
      rw [List.get?_cons_zero] at h1
      rw [List.get?_cons_succ] at h2
      cases h1
      have h2m : (off + min (n - off) step, min (n - (off + min (n - off) step)) step) ∈
          chunkRanges step n (off + min (n - off) step) ∧
          off + min (n - off) step < n := by
        rw [chunkRanges] at h2
        by_cases hc2 : off + min (n - off) step < n
        · rw [dif_pos ⟨hc2, hs⟩] at h2
          exact ⟨by rw [chunkRanges, dif_pos ⟨hc2, hs⟩]; exact List.mem_cons_self _ _, hc2⟩
        · rw [dif_neg (by exact fun h => hc2 h.1)] at h2
          cases h2
      have hr2 : r2 = (off + min (n - off) step, min (n - (off + min (n - off) step)) step) := by
        rw [chunkRanges, dif_pos ⟨h2m.2, hs⟩] at h2
        rw [List.get?_cons_zero] at h2
        cases h2
        rfl
      subst hr2
      refine ⟨rfl, ?_⟩
      have := h2m.2
      dsimp only
      omega
    | succ i =>
      rw [List.get?_cons_succ] at h1 h2
      exact chunkRanges_consecutive step n (off + min (n - off) step) hs i r r2 h1 h2
  · rw [dif_neg (by exact fun h => hc h.1)] at h1
    cases h1
termination_by n - off

/-- Every chunk is non-empty and no larger than `step`. -/
theorem chunkRanges_len_bounds (step n off : Nat) (hs : 0 < step) :
    ∀ r ∈ chunkRanges step n off, 0 < r.2 ∧ r.2 ≤ step := by
  intro r hr
  rw [chunkRanges] at hr
  by_cases hc : off < n
  · rw [dif_pos ⟨hc, hs⟩] at hr
    rcases List.mem_cons.mp hr with h | h
    · subst h
      dsimp only
      omega
    · exact chunkRanges_len_bounds step n (off + min (n - off) step) hs r h
  · rw [dif_neg (by exact fun h => hc h.1)] at hr
    cases hr
termination_by n - off

/-- The chunks cover the whole byte range: their lengths sum to `n - off`. -/
theorem chunkRanges_sum (step n off : Nat) (hs : 0 < step) :
    ((chunkRanges step n off).map Prod.snd).sum = n - off := by
  rw [chunkRanges]
  by_cases hc : off < n
  · rw [dif_pos ⟨hc, hs⟩]
    rw [List.map_cons, List.sum_cons,
      chunkRanges_sum step n (off + min (n - off) step) hs]
    dsimp only
    omega
  · rw [dif_neg (by exact fun h => hc h.1)]
    dsimp only [List.map_nil, List.sum_nil]
    omega
termination_by n - off

/-- C5: in the real-time emulator a buffer of `n` bytes is consumed in
consecutive sub-buffers: the decoded ranges are exactly the chunk ranges for
step `bytes_step_to_decode = max(128, 1024 * raw_event_size)`; the first
chunk starts at byte 0, every chunk with a successor has exactly `step`
bytes, every chunk is non-empty and at most `step` bytes (so only the final
remainder may be shorter), and the chunk lengths sum to `n`. -/
theorem C5_emulator_sub_buffer_sizes (env : EmuEnv) (s : CameraState) (n : Nat)
    (hrun : s.is_running = true) :
    decodeRanges (emulate_real_time env s n).2 =
      chunkRanges (bytes_step_to_decode env.raw_event_size) n 0 ∧
    bytes_step_to_decode env.raw_event_size = max 128 (1024 * env.raw_event_size) ∧
    (0 < n → (chunkRanges (bytes_step_to_decode env.raw_event_size) n 0).get? 0 =
      some (0, min n (bytes_step_to_decode env.raw_event_size))) ∧
    (∀ i r r2,
      (chunkRanges (bytes_step_to_decode env.raw_event_size) n 0).get? i = some r →
      (chunkRanges (bytes_step_to_decode env.raw_event_size) n 0).get? (i + 1) = some r2 →
      r2.1 = r.1 + r.2 ∧ r.2 = bytes_step_to_decode env.raw_event_size) ∧
    (∀ r ∈ chunkRanges (bytes_step_to_decode env.raw_event_size) n 0,
      0 < r.2 ∧ r.2 ≤ bytes_step_to_decode env.raw_event_size) ∧
    ((chunkRanges (bytes_step_to_decode env.raw_event_size) n 0).map Prod.snd).sum = n := by
  refine ⟨emulate_loop_decodeRanges env n s 0 0 hrun, ?_, ?_, ?_, ?_, ?_⟩
  · rw [bytes_step_to_decode, Nat.mul_comm]
  · intro hn
    simpa using chunkRanges_head (bytes_step_to_decode env.raw_event_size) n 0 hn
      (bytes_step_pos env.raw_event_size)
  · exact chunkRanges_consecutive _ n 0 (bytes_step_pos env.raw_event_size)
  · exact chunkRanges_len_bounds _ n 0 (bytes_step_pos env.raw_event_size)
  · simpa using chunkRanges_sum (bytes_step_to_decode env.raw_event_size) n 0
      (bytes_step_pos env.raw_event_size)

/-- Witness for C5: the running demo session replaying a 2500-byte buffer
with a 1-byte event size (step `max 128 1024 = 1024`). -/
theorem C5_emulator_sub_buffer_sizes_witness :
    demoRunningState.is_running = true ∧
    decodeRanges (emulate_real_time demoEmuEnv demoRunningState 2500).2 =
      chunkRanges (bytes_step_to_decode demoEmuEnv.raw_event_size) 2500 0 ∧
    ((chunkRanges (bytes_step_to_decode demoEmuEnv.raw_event_size) 2500 0).map
      Prod.snd).sum = 2500 :=
  ⟨rfl,
   (C5_emulator_sub_buffer_sizes demoEmuEnv demoRunningState 2500 rfl).1,
   (C5_emulator_sub_buffer_sizes demoEmuEnv demoRunningState 2500 rfl).2.2.2.2.2⟩

/-! ### The timing anchors (C6) -/

theorem anchorActs_append (a b : List Act) :
    anchorActs (a ++ b) = anchorActs a ++ anchorActs b :=
  List.filter_append _ _

theorem sleepActs_append (a b : List Act) :
    sleepActs (a ++ b) = sleepActs a ++ sleepActs b :=
  List.filter_append _ _

/-- The decode/raw-callback dispatch of a sub-buffer contains no anchor
action. -/
theorem anchorActs_dispatch (b o l : Nat) (raws : List Nat) :
    anchorActs (Act.decode b o l :: raws.map fun cb => Act.raw cb b o l) = [] := by
  unfold anchorActs
  rw [List.filter_cons_of_neg (by simp), List.filter_eq_nil_iff]
  intro a ha
  rcases List.mem_map.mp ha with ⟨cb, _, rfl⟩
  simp

/-- The decode/raw-callback dispatch of a sub-buffer contains no sleep
action. -/
theorem sleepActs_dispatch (b o l : Nat) (raws : List Nat) :
    sleepActs (Act.decode b o l :: raws.map fun cb => Act.raw cb b o l) = [] := by
  unfold sleepActs
  rw [List.filter_cons_of_neg (by simp), List.filter_eq_nil_iff]
  intro a ha
  rcases List.mem_map.mp ha with ⟨cb, _, rfl⟩
  simp

theorem anchorActs_ite_anchor (c : Prop) [Decidable c] (ts : Int) (clk : Nat) :
    anchorActs (if c then [Act.anchorSet ts clk] else []) =
      if c then [Act.anchorSet ts clk] else [] := by
  split <;> rfl

theorem anchorActs_ite_sleep (c : Prop) [Decidable c] (u : Nat) :
    anchorActs (if c then [Act.sleepFor u] else []) = [] := by
  split <;> rfl

theorem sleepActs_ite_anchor (c : Prop) [Decidable c] (ts : Int) (clk : Nat) :
    sleepActs (if c then [Act.anchorSet ts clk] else []) = [] := by
  split <;> rfl

theorem sleepActs_ite_sleep (c : Prop) [Decidable c] (u : Nat) :
    sleepActs (if c then [Act.sleepFor u] else []) =
      if c then [Act.sleepFor u] else [] := by
  split <;> rfl

/-- The anchor actions of one sub-buffer iteration are exactly the
assignment the deferred-anchoring step performs (if any). -/
theorem emu_process_sub_buffer_anchorActs (env : EmuEnv) (s : CameraState)
    (off len k : Nat) :
    anchorActs (emu_process_sub_buffer env s off len k).2 =
      if (anchor_update s (env.last_ts (off + len)) (env.clock k)).2 then
        [Act.anchorSet (env.last_ts (off + len)) (env.clock k)]
      else [] := by
  unfold emu_process_sub_buffer
  dsimp only
  rw [anchorActs_append, anchorActs_append, anchorActs_dispatch,
    anchorActs_ite_anchor, anchorActs_ite_sleep]
  simp

/-- When the deferred-anchoring condition fails, the sub-buffer iteration
does not change the session state at all and emits no anchor action. -/
theorem emu_process_sub_buffer_no_anchor (env : EmuEnv) (s : CameraState)
    (off len k : Nat)
    (h : ¬ (s.first_ts_clock = 0 ∧ env.last_ts (off + len) ≠ s.first_ts)) :
    (emu_process_sub_buffer env s off len k).1 = s ∧
    anchorActs (emu_process_sub_buffer env s off len k).2 = [] := by
  constructor
  · unfold emu_process_sub_buffer anchor_update
    dsimp only
    rw [if_neg h]
  · rw [emu_process_sub_buffer_anchorActs]
    unfold anchor_update
    rw [if_neg h]
    rfl

/-- When the deferred-anchoring condition holds, the iteration assigns the
anchors to the current decoded timestamp and wall clock and emits exactly
one anchor action recording them. -/
theorem emu_process_sub_buffer_anchor (env : EmuEnv) (s : CameraState)
    (off len k : Nat)
    (h : s.first_ts_clock = 0 ∧ env.last_ts (off + len) ≠ s.first_ts) :
    (emu_process_sub_buffer env s off len k).1.first_ts = env.last_ts (off + len) ∧
    (emu_process_sub_buffer env s off len k).1.first_ts_clock = env.clock k ∧
    (emu_process_sub_buffer env s off len k).1.is_running = s.is_running ∧
    anchorActs (emu_process_sub_buffer env s off len k).2 =
      [Act.anchorSet (env.last_ts (off + len)) (env.clock k)] := by
  refine ⟨?_, ?_, emu_process_sub_buffer_is_running env s off len k, ?_⟩
  · unfold emu_process_sub_buffer anchor_update
    dsimp only
    rw [if_pos h]
  · unfold emu_process_sub_buffer anchor_update
    dsimp only
    rw [if_pos h]
  · rw [emu_process_sub_buffer_anchorActs]
    unfold anchor_update
    rw [if_pos h]
    rfl

/-- Once the anchors are set (`first_ts_clock_ ≠ 0`), no iteration of the
emulator ever touches them again, and no anchor action is emitted. -/
theorem emulate_loop_anchor_frozen (env : EmuEnv) (n : Nat) (s : CameraState)
    (off k : Nat) (h : s.first_ts_clock ≠ 0) :
    (emulate_loop env n s off k).1.first_ts = s.first_ts ∧
    (emulate_loop env n s off k).1.first_ts_clock = s.first_ts_clock ∧
    anchorActs (emulate_loop env n s off k).2 = [] := by
  rw [emulate_loop]
  by_cases hc : off < n ∧ s.is_running = true
  · rw [dif_pos hc]
    dsimp only
    have hno := emu_process_sub_buffer_no_anchor env s off
      (min (n - off) (bytes_step_to_decode env.raw_event_size)) k
      (by intro hcontra; exact h hcontra.1)
    rw [hno.1]
    have ih := emulate_loop_anchor_frozen env n s
      (off + min (n - off) (bytes_step_to_decode env.raw_event_size)) (k + 1) h
    refine ⟨ih.1, ih.2.1, ?_⟩
    unfold anchorActs at hno ih ⊢
    rw [List.filter_append, hno.2, ih.2.2]
    rfl
  · rw [dif_neg hc]
    exact ⟨rfl, rfl, rfl⟩
termination_by n - off
decreasing_by
  have := bytes_step_pos env.raw_event_size
  omega

/-- Within one emulate run from an unset anchor state, if chunk `i` is the
first sub-buffer whose decoded timestamp differs from the initial value,
then exactly one anchor assignment happens, at that chunk, recording that
chunk's decoded timestamp and wall-clock reading, and those are the final
anchor values. -/
theorem emulate_loop_anchor_first_dev (env : EmuEnv) (n : Nat) (s : CameraState)
    (off k : Nat) (hrun : s.is_running = true) (h0 : s.first_ts_clock = 0)
    (hclock : ∀ j, 0 < env.clock j)
    (i : Nat) (r : Nat × Nat)
    (hi : (chunkRanges (bytes_step_to_decode env.raw_event_size) n off).get? i = some r)
    (hdev : env.last_ts (r.1 + r.2) ≠ s.first_ts)
    (hbefore : ∀ i2 r2, i2 < i →
      (chunkRanges (bytes_step_to_decode env.raw_event_size) n off).get? i2 = some r2 →
      env.last_ts (r2.1 + r2.2) = s.first_ts) :
    anchorActs (emulate_loop env n s off k).2 =
      [Act.anchorSet (env.last_ts (r.1 + r.2)) (env.clock (k + i))] ∧
    (emulate_loop env n s off k).1.first_ts = env.last_ts (r.1 + r.2) ∧
    (emulate_loop env n s off k).1.first_ts_clock = env.clock (k + i) := by
  have hstep := bytes_step_pos env.raw_event_size
  have hc : off < n := by
    by_contra hcn
    rw [chunkRanges, dif_neg (fun hh => hcn hh.1)] at hi
    cases hi
  have hck : chunkRanges (bytes_step_to_decode env.raw_event_size) n off =
      (off, min (n - off) (bytes_step_to_decode env.raw_event_size)) ::
        chunkRanges (bytes_step_to_decode env.raw_event_size) n
          (off + min (n - off) (bytes_step_to_decode env.raw_event_size)) := by
    rw [chunkRanges, dif_pos ⟨hc, hstep⟩]
  rw [hck] at hi hbefore
  rw [emulate_loop, dif_pos ⟨hc, hrun⟩]
  dsimp only
  cases i with
  | zero =>
    rw [List.get?_cons_zero] at hi
    cases hi
    have hdev0 : s.first_ts_clock = 0 ∧
        env.last_ts (off + min (n - off) (bytes_step_to_decode env.raw_event_size)) ≠
          s.first_ts := ⟨h0, hdev⟩
    have ha := emu_process_sub_buffer_anchor env s off
      (min (n - off) (bytes_step_to_decode env.raw_event_size)) k hdev0
    have hfz := emulate_loop_anchor_frozen env n
      (emu_process_sub_buffer env s off
        (min (n - off) (bytes_step_to_decode env.raw_event_size)) k).1
      (off + min (n - off) (bytes_step_to_decode env.raw_event_size)) (k + 1)
      (by rw [ha.2.1]; exact Nat.pos_iff_ne_zero.mp (hclock k))
    refine ⟨?_, ?_, ?_⟩
    · rw [anchorActs_append, ha.2.2.2, hfz.2.2]
      simp
    · rw [hfz.1, ha.1]
    · rw [hfz.2.1, ha.2.1]
      simp
  | succ i =>
    rw [List.get?_cons_succ] at hi
    have hhead : env.last_ts (off + min (n - off) (bytes_step_to_decode env.raw_event_size)) =
        s.first_ts := by
      have := hbefore 0 (off, min (n - off) (bytes_step_to_decode env.raw_event_size))
        (Nat.succ_pos i) List.get?_cons_zero
      exact this
    have hno := emu_process_sub_buffer_no_anchor env s off
      (min (n - off) (bytes_step_to_decode env.raw_event_size)) k
      (fun hcontra => hcontra.2 hhead)
    rw [hno.1]
    have ih := emulate_loop_anchor_first_dev env n s
      (off + min (n - off) (bytes_step_to_decode env.raw_event_size)) (k + 1)
      hrun h0 hclock i r hi hdev
      (fun i2 r2 hlt hget =>
        hbefore (i2 + 1) r2 (Nat.succ_lt_succ hlt) (by rw [List.get?_cons_succ]; exact hget))
    refine ⟨?_, ?_, ?_⟩
    · rw [anchorActs_append, hno.2, ih.1]
      have : k + 1 + i = k + (i + 1) := by omega
      rw [this]
      rfl
    · rw [ih.2.1]
    · rw [ih.2.2]
      have : k + 1 + i = k + (i + 1) := by omega
      rw [this]
termination_by n - off
decreasing_by
  have := bytes_step_pos env.raw_event_size
  omega

/-- C6: the timing anchors are reset by `init_clocks` at the start of a run
(`first_ts` to the decoder's current timestamp, `first_ts_clock` to 0);
once set (non-zero wall-clock anchor) they are never reassigned by any
emulator iteration; and from an unset state, with a positive wall clock,
they are assigned exactly once — at the first sub-buffer whose decoded
timestamp strictly increases past the initial value — to that sub-buffer's
decoded timestamp and wall-clock reading, which remain the final values of
the run. -/
theorem C6_timing_anchor_assigned_once (s : CameraState) (t : Int) (env : EmuEnv)
    (n off k : Nat) :
    ((init_clocks s t).first_ts = t ∧ (init_clocks s t).first_ts_clock = 0) ∧
    (s.first_ts_clock ≠ 0 →
      (emulate_loop env n s off k).1.first_ts = s.first_ts ∧
      (emulate_loop env n s off k).1.first_ts_clock = s.first_ts_clock ∧
      anchorActs (emulate_loop env n s off k).2 = []) ∧
    (∀ i r, s.is_running = true → s.first_ts_clock = 0 → (∀ j, 0 < env.clock j) →
      (chunkRanges (bytes_step_to_decode env.raw_event_size) n off).get? i = some r →
      s.first_ts < env.last_ts (r.1 + r.2) →
      (∀ i2 r2, i2 < i →
        (chunkRanges (bytes_step_to_decode env.raw_event_size) n off).get? i2 = some r2 →
        env.last_ts (r2.1 + r2.2) = s.first_ts) →
      anchorActs (emulate_loop env n s off k).2 =
        [Act.anchorSet (env.last_ts (r.1 + r.2)) (env.clock (k + i))] ∧
      (emulate_loop env n s off k).1.first_ts = env.last_ts (r.1 + r.2) ∧
      (emulate_loop env n s off k).1.first_ts_clock = env.clock (k + i)) := by
  refine ⟨⟨rfl, rfl⟩, emulate_loop_anchor_frozen env n s off k, ?_⟩
  intro i r hrun h0 hclock hi hdev hbefore
  exact emulate_loop_anchor_first_dev env n s off k hrun h0 hclock i r hi
    (ne_of_gt hdev) hbefore

/-- Witness for C6: the demo session replays a 2048-byte buffer; the decoded
timestamp first advances (0 to 5) at the end of the second 1024-byte
sub-buffer, so the anchors are assigned there, to decoded timestamp 5 and
wall clock 101. -/
theorem C6_timing_anchor_assigned_once_witness :
    (init_clocks demoRunningState 7).first_ts = 7 ∧
    demoRunningState.first_ts_clock = 0 ∧
    anchorActs (emulate_loop demoEmuEnv 2048 demoRunningState 0 0).2 =
      [Act.anchorSet 5 101] ∧
    (emulate_loop demoEmuEnv 2048 demoRunningState 0 0).1.first_ts = 5 ∧
    (emulate_loop demoEmuEnv 2048 demoRunningState 0 0).1.first_ts_clock = 101 := by
  have hchunks : chunkRanges (bytes_step_to_decode demoEmuEnv.raw_event_size) 2048 0 =
      [(0, 1024), (1024, 1024)] := by
    simp [chunkRanges, bytes_step_to_decode, demoEmuEnv]
  have h := (C6_timing_anchor_assigned_once demoRunningState 7 demoEmuEnv 2048 0 0).2.2
    1 (1024, 1024) rfl rfl
    (fun j => by simp [demoEmuEnv])
    (by rw [hchunks]; rfl)
    (by simp [demoEmuEnv, demoRunningState])
    (fun i2 r2 hlt hget => by
      rw [hchunks] at hget
      interval_cases i2
      · simp at hget
        rw [← hget]
        simp [demoEmuEnv, demoRunningState]
      )
  refine ⟨(C6_timing_anchor_assigned_once demoRunningState 7 demoEmuEnv 2048 0 0).1.1,
    rfl, ?_, ?_, ?_⟩
  · rw [h.1]
    simp [demoEmuEnv]
  · rw [h.2.1]
    simp [demoEmuEnv]
  · rw [h.2.2]
    simp [demoEmuEnv]

/-! ### The pacing sleep (C7) -/

/-- The sleep actions of one sub-buffer iteration are exactly the single
sleep the catch-up check performs (if any). -/
theorem emu_process_sub_buffer_sleepActs (env : EmuEnv) (s : CameraState)
    (off len k : Nat) :
    sleepActs (emu_process_sub_buffer env s off len k).2 =
      if env.clock k < expected_ts
          (anchor_update s (env.last_ts (off + len)) (env.clock k)).1.first_ts_clock
          (env.last_ts (off + len) -
            (anchor_update s (env.last_ts (off + len)) (env.clock k)).1.first_ts)
      then [Act.sleepFor (expected_ts
          (anchor_update s (env.last_ts (off + len)) (env.clock k)).1.first_ts_clock
          (env.last_ts (off + len) -
            (anchor_update s (env.last_ts (off + len)) (env.clock k)).1.first_ts)
          - env.clock k)]
      else [] := by
  unfold emu_process_sub_buffer
  dsimp only
  rw [sleepActs_append, sleepActs_append, sleepActs_dispatch, sleepActs_ite_anchor,
    sleepActs_ite_sleep]
  simp

/-- C7: for a sub-buffer whose (post-anchoring) expected wall-clock time
`expectedI = anchor_wallclock + (decoded_ts - anchor_decoded_ts)` does not
overflow `uint64`, the emulator sleeps for exactly `expectedI - now`
microseconds when the current wall clock `now` is strictly earlier than
`expectedI`, and does not sleep at all when the wall clock has reached or
passed it. -/
theorem C7_emulator_sleep_catch_up (env : EmuEnv) (s : CameraState)
    (off len k : Nat) (expectedI : Int)
    (hE : expectedI =
      ((anchor_update s (env.last_ts (off + len)) (env.clock k)).1.first_ts_clock : Int) +
        (env.last_ts (off + len) -
          (anchor_update s (env.last_ts (off + len)) (env.clock k)).1.first_ts))
    (h0 : 0 ≤ expectedI) (hlt : expectedI < 2 ^ 64) :
    (((env.clock k : Int) < expectedI →
      sleepActs (emu_process_sub_buffer env s off len k).2 =
        [Act.sleepFor (expectedI.toNat - env.clock k)]) ∧
     (expectedI ≤ (env.clock k : Int) →
      sleepActs (emu_process_sub_buffer env s off len k).2 = [])) := by
  have hmod : expected_ts
      (anchor_update s (env.last_ts (off + len)) (env.clock k)).1.first_ts_clock
      (env.last_ts (off + len) -
        (anchor_update s (env.last_ts (off + len)) (env.clock k)).1.first_ts) =
      expectedI.toNat := by
    unfold expected_ts
    rw [← hE, Int.emod_eq_of_lt h0 hlt]
  rw [emu_process_sub_buffer_sleepActs, hmod]
  constructor
  · intro hcond
    rw [if_pos (by omega)]
  · intro hcond
    rw [if_neg (by omega)]

/-- Witness for C7: anchors already set to wall clock 200 and decoded
timestamp 0; the second sub-buffer decodes up to timestamp 5, so the
expected wall clock is 205 while the actual wall clock is 101, and the
emulator sleeps 104 microseconds.  A state whose anchor wall clock is 90
(expected 95, already passed) sleeps nothing. -/
theorem C7_emulator_sleep_catch_up_witness :
    sleepActs (emu_process_sub_buffer demoEmuEnv
      { demoRunningState with first_ts := 0, first_ts_clock := 200 } 1024 1024 1).2 =
      [Act.sleepFor 104] ∧
    sleepActs (emu_process_sub_buffer demoEmuEnv
      { demoRunningState with first_ts := 0, first_ts_clock := 90 } 1024 1024 1).2 =
      [] := by
  constructor
  · have h := (C7_emulator_sleep_catch_up demoEmuEnv
      { demoRunningState with first_ts := 0, first_ts_clock := 200 } 1024 1024 1 205
      (by simp [anchor_update, demoEmuEnv, demoRunningState])
      (by norm_num) (by norm_num)).1 (by simp [demoEmuEnv])
    rw [h]
    rfl
  · exact (C7_emulator_sleep_catch_up demoEmuEnv
      { demoRunningState with first_ts := 0, first_ts_clock := 90 } 1024 1024 1 95
      (by simp [anchor_update, demoEmuEnv, demoRunningState])
      (by norm_num) (by norm_num)).2 (by simp [demoEmuEnv])

/-! ### Decode-before-raw ordering (C4) -/

/-- Every action of a non-emulated buffer dispatch carries that buffer's
index and the full range `(0, n)`. -/
theorem processBufferLive_mem (tc : Nat) (rcbs : List Nat) (b n : Nat) :
    ∀ a ∈ processBufferLive tc rcbs b n,
      a = Act.decode b 0 n ∨ ∃ cb, a = Act.raw cb b 0 n := by
  intro a ha
  unfold processBufferLive at ha
  rcases List.mem_append.mp ha with h | h
  · left
    by_cases htc : tc ≠ 0
    · rw [if_pos htc] at h
      simpa using h
    · rw [if_neg htc] at h
      cases h
  · right
    rcases List.mem_map.mp h with ⟨cb, _, rfl⟩
    exact ⟨cb, rfl⟩

/-- In one non-emulated buffer dispatch, any decode action sits strictly
before any raw-callback action. -/
theorem processBufferLive_order (tc : Nat) (rcbs : List Nat) (b n : Nat) :
    ∀ i j cb b2 o2 l2 b3 o3 l3,
      (processBufferLive tc rcbs b n).get? i = some (Act.raw cb b2 o2 l2) →
      (processBufferLive tc rcbs b n).get? j = some (Act.decode b3 o3 l3) →
      j < i := by
  intro i j cb b2 o2 l2 b3 o3 l3 hi hj
  unfold processBufferLive at hi hj
  by_cases htc : tc ≠ 0
  · rw [if_pos htc] at hi hj
    rw [show ([Act.decode b 0 n] ++ rcbs.map fun cb => Act.raw cb b 0 n) =
      Act.decode b 0 n :: rcbs.map (fun cb => Act.raw cb b 0 n) from rfl] at hi hj
    cases j with
    | zero =>
      cases i with
      | zero =>
        rw [List.get?_cons_zero] at hi
        simp at hi
      | succ i => exact Nat.succ_pos i
    | succ j =>
      rw [List.get?_cons_succ] at hj
      rcases List.mem_map.mp (List.get?_mem hj) with ⟨cb2, _, hcontra⟩
      exact Act.noConfusion hcontra
  · rw [if_neg htc] at hj
    rw [List.nil_append] at hj
    rcases List.mem_map.mp (List.get?_mem hj) with ⟨cb2, _, hcontra⟩
    exact Act.noConfusion hcontra

/-- Every decode or raw action of the non-emulated main loop belongs to a
buffer at or after the iteration the loop started from. -/
theorem run_main_loop_buf_ge (tc : Nat) (rcbs : List Nat) :
    ∀ (polls : List (Int × Nat)) (buf0 : Nat) (res0 : Int),
      ∀ a ∈ (run_main_loop tc rcbs polls buf0 res0).2,
        (∀ b o l, a = Act.decode b o l → buf0 ≤ b) ∧
        (∀ cb b o l, a = Act.raw cb b o l → buf0 ≤ b) := by
  intro polls
  induction polls with
  | nil =>
    intro buf0 res0 a ha
    cases ha
  | cons hd rest ih =>
    intro buf0 res0 a ha
    rw [run_main_loop] at ha
    by_cases hr : hd.1 < 0
    · rw [if_pos hr] at ha
      cases ha
    · rw [if_neg hr] at ha
      dsimp only at ha
      rcases List.mem_append.mp ha with h | h
      · by_cases hpos : 0 < hd.1
        · rw [if_pos hpos] at h
          rcases processBufferLive_mem tc rcbs buf0 hd.2 a h with h2 | ⟨cb, h2⟩
          · subst h2
            constructor
            · intro b o l he
              injection he with e1 e2 e3
              omega
            · intro cb b o l he
              exact Act.noConfusion he
          · subst h2
            constructor
            · intro b o l he
              exact Act.noConfusion he
            · intro cb2 b o l he
              injection he with e1 e2 e3 e4
              omega
        · rw [if_neg hpos] at h
          cases h
      · have hge := ih (buf0 + 1) hd.1 a h
        constructor
        · intro b o l he
          exact Nat.le_of_succ_le (hge.1 b o l he)
        · intro cb b o l he
          exact Nat.le_of_succ_le (hge.2 cb b o l he)

/-- In the non-emulated main loop, the decode of a buffer precedes every
raw-data callback carrying the same buffer and range. -/
theorem run_main_loop_decode_before_raw (tc : Nat) (rcbs : List Nat) :
    ∀ (polls : List (Int × Nat)) (buf0 : Nat) (res0 : Int) (i j cb b o l : Nat),
      (run_main_loop tc rcbs polls buf0 res0).2.get? i = some (Act.raw cb b o l) →
      (run_main_loop tc rcbs polls buf0 res0).2.get? j = some (Act.decode b o l) →
      j < i := by
  intro polls
  induction polls with
  | nil =>
    intro buf0 res0 i j cb b o l hi hj
    cases hi
  | cons hd rest ih =>
    intro buf0 res0 i j cb b o l hi hj
    rw [run_main_loop] at hi hj
    by_cases hr : hd.1 < 0
    · rw [if_pos hr] at hi
      cases hi
    · rw [if_neg hr] at hi hj
      dsimp only at hi hj
      by_cases hi2 : i < (if 0 < hd.1 then processBufferLive tc rcbs buf0 hd.2 else []).length
      · rw [List.get?_append hi2] at hi
        by_cases hj2 : j < (if 0 < hd.1 then processBufferLive tc rcbs buf0 hd.2 else []).length
        · rw [List.get?_append hj2] at hj
          by_cases hpos : 0 < hd.1
          · rw [if_pos hpos] at hi hj
            exact processBufferLive_order tc rcbs buf0 hd.2 i j cb b o l b o l hi hj
          · rw [if_neg hpos] at hi
            simp at hi
        · rw [List.get?_append_right (Nat.le_of_not_lt hj2)] at hj
          by_cases hpos : 0 < hd.1
          · rw [if_pos hpos] at hi
            rcases processBufferLive_mem tc rcbs buf0 hd.2 _ (List.get?_mem hi)
              with h2 | ⟨cb2, h2⟩
            · exact Act.noConfusion h2
            · have hb : b = buf0 := by
                injection h2 with e1 e2 e3 e4
              have hge := (run_main_loop_buf_ge tc rcbs rest (buf0 + 1) hd.1 _
                (List.get?_mem hj)).1 b o l rfl
              omega
          · rw [if_neg hpos] at hi
            simp at hi
      · by_cases hj2 : j < (if 0 < hd.1 then processBufferLive tc rcbs buf0 hd.2 else []).length
        · omega
        · rw [List.get?_append_right (Nat.le_of_not_lt hi2)] at hi
          rw [List.get?_append_right (Nat.le_of_not_lt hj2)] at hj
          have := ih (buf0 + 1) hd.1 _ _ cb b o l hi hj
          omega

theorem mem_ite_anchor_no_dispatch (c : Prop) [Decidable c] (ts : Int) (clk : Nat) :
    ∀ a ∈ (if c then [Act.anchorSet ts clk] else []),
      (∀ b o l, a ≠ Act.decode b o l) ∧ (∀ cb b o l, a ≠ Act.raw cb b o l) := by
  intro a ha
  split at ha
  · rw [List.mem_singleton] at ha
    subst ha
    constructor
    · intro b o l h
      exact Act.noConfusion h
    · intro cb b o l h
      exact Act.noConfusion h
  · cases ha

theorem mem_ite_sleep_no_dispatch (c : Prop) [Decidable c] (u : Nat) :
    ∀ a ∈ (if c then [Act.sleepFor u] else []),
      (∀ b o l, a ≠ Act.decode b o l) ∧ (∀ cb b o l, a ≠ Act.raw cb b o l) := by
  intro a ha
  split at ha
  · rw [List.mem_singleton] at ha
    subst ha
    constructor
    · intro b o l h
      exact Act.noConfusion h
    · intro cb b o l h
      exact Act.noConfusion h
  · cases ha

theorem dispatch_shape_helper (d : Act) (m A B : List Act)
    (hA : ∀ a ∈ A, (∀ b o l, a ≠ Act.decode b o l) ∧ (∀ cb b o l, a ≠ Act.raw cb b o l))
    (hB : ∀ a ∈ B, (∀ b o l, a ≠ Act.decode b o l) ∧ (∀ cb b o l, a ≠ Act.raw cb b o l)) :
    ∃ rest, ((d :: m) ++ A) ++ B = d :: (m ++ rest) ∧
      ∀ a ∈ rest, (∀ b o l, a ≠ Act.decode b o l) ∧ (∀ cb b o l, a ≠ Act.raw cb b o l) := by
  refine ⟨A ++ B, ?_, ?_⟩
  · rw [List.cons_append, List.cons_append, List.append_assoc]
  · intro a ha
    rcases List.mem_append.mp ha with h | h
    · exact hA a h
    · exact hB a h

/-- Shape of one emulator sub-buffer dispatch: the decode first, then the
raw callbacks, then actions that are neither decodes nor raw callbacks. -/
theorem emu_process_sub_buffer_shape (env : EmuEnv) (s : CameraState)
    (off len k : Nat) :
    ∃ rest, (emu_process_sub_buffer env s off len k).2 =
      Act.decode env.buf off len ::
        ((env.raw_cbs.map fun cb => Act.raw cb env.buf off len) ++ rest) ∧
      ∀ a ∈ rest, (∀ b o l, a ≠ Act.decode b o l) ∧ (∀ cb b o l, a ≠ Act.raw cb b o l) := by
  unfold emu_process_sub_buffer
  dsimp only
  exact dispatch_shape_helper _ _ _ _
    (mem_ite_anchor_no_dispatch _ _ _) (mem_ite_sleep_no_dispatch _ _)

/-- A decode action can only sit at the head of a sub-buffer dispatch, and
it carries the dispatch's own range. -/
theorem emu_process_sub_buffer_get_decode (env : EmuEnv) (s : CameraState)
    (off len k : Nat) :
    ∀ j b o l, (emu_process_sub_buffer env s off len k).2.get? j =
        some (Act.decode b o l) →
      j = 0 ∧ b = env.buf ∧ o = off ∧ l = len := by
  intro j b o l hj
  rcases emu_process_sub_buffer_shape env s off len k with ⟨rest, hsh, hrest⟩
  rw [hsh] at hj
  cases j with
  | zero =>
    rw [List.get?_cons_zero] at hj
    injection hj with he
    injection he with e1 e2 e3
    exact ⟨rfl, e1.symm, e2.symm, e3.symm⟩
  | succ j =>
    rw [List.get?_cons_succ] at hj
    rcases List.mem_append.mp (List.get?_mem hj) with h | h
    · rcases List.mem_map.mp h with ⟨cb, _, hcontra⟩
      exact Act.noConfusion hcontra
    · exact absurd rfl ((hrest _ h).1 b o l)

/-- A raw-callback action of a sub-buffer dispatch sits strictly after the
head and carries the dispatch's own range. -/
theorem emu_process_sub_buffer_get_raw (env : EmuEnv) (s : CameraState)
    (off len k : Nat) :
    ∀ i cb b o l, (emu_process_sub_buffer env s off len k).2.get? i =
        some (Act.raw cb b o l) →
      1 ≤ i ∧ b = env.buf ∧ o = off ∧ l = len := by
  intro i cb b o l hi
  rcases emu_process_sub_buffer_shape env s off len k with ⟨rest, hsh, hrest⟩
  rw [hsh] at hi
  cases i with
  | zero =>
    rw [List.get?_cons_zero] at hi
    injection hi with he
    exact Act.noConfusion he
  | succ i =>
    rw [List.get?_cons_succ] at hi
    refine ⟨Nat.succ_pos i, ?_⟩
    rcases List.mem_append.mp (List.get?_mem hi) with h | h
    · rcases List.mem_map.mp h with ⟨cb2, _, hcontra⟩
      injection hcontra.symm with e1 e2 e3 e4
      exact ⟨e2, e3, e4⟩
    · exact absurd rfl ((hrest _ h).2 cb b o l)

/-- Every decode or raw action the emulator emits from offset `off` onward
has a range offset of at least `off`. -/
theorem emulate_loop_ranges_ge (env : EmuEnv) (n : Nat) :
    ∀ (s : CameraState) (off k : Nat),
      ∀ a ∈ (emulate_loop env n s off k).2,
        (∀ b o l, a = Act.decode b o l → off ≤ o) ∧
        (∀ cb b o l, a = Act.raw cb b o l → off ≤ o) := by
  intro s off k a ha
  rw [emulate_loop] at ha
  by_cases hc : off < n ∧ s.is_running = true
  · rw [dif_pos hc] at ha
    dsimp only at ha
    rcases List.mem_append.mp ha with h | h
    · rcases emu_process_sub_buffer_shape env s off
        (min (n - off) (bytes_step_to_decode env.raw_event_size)) k with ⟨rest, hsh, hrest⟩
      rw [hsh] at h
      rcases List.mem_cons.mp h with h2 | h2
      · subst h2
        constructor
        · intro b o l he
          injection he with e1 e2 e3
          omega
        · intro cb b o l he
          exact Act.noConfusion he
      · rcases List.mem_append.mp h2 with h3 | h3
        · rcases List.mem_map.mp h3 with ⟨cb, _, rfl⟩
          constructor
          · intro b o l he
            exact Act.noConfusion he
          · intro cb2 b o l he
            injection he with e1 e2 e3 e4
            omega
        · constructor
          · intro b o l he
            exact absurd he ((hrest _ h3).1 b o l)
          · intro cb b o l he
            exact absurd he ((hrest _ h3).2 cb b o l)
    · have hge := emulate_loop_ranges_ge env n _
        (off + min (n - off) (bytes_step_to_decode env.raw_event_size)) (k + 1) a h
      constructor
      · intro b o l he
        exact Nat.le_trans (Nat.le_add_right _ _) (hge.1 b o l he)
      · intro cb b o l he
        exact Nat.le_trans (Nat.le_add_right _ _) (hge.2 cb b o l he)
  · rw [dif_neg hc] at ha
    cases ha
termination_by _s off _k => n - off
decreasing_by
  have := bytes_step_pos env.raw_event_size
  omega

/-- In the emulator, the decode of a sub-buffer precedes every raw-data
callback carrying the same range. -/
theorem emulate_loop_decode_before_raw (env : EmuEnv) (n : Nat) :
    ∀ (s : CameraState) (off k i j cb b o l : Nat),
      (emulate_loop env n s off k).2.get? i = some (Act.raw cb b o l) →
      (emulate_loop env n s off k).2.get? j = some (Act.decode b o l) →
      j < i := by
  intro s off k i j cb b o l hi hj
  rw [emulate_loop] at hi hj
  by_cases hc : off < n ∧ s.is_running = true
  · rw [dif_pos hc] at hi hj
    dsimp only at hi hj
    have hlen1 : 1 ≤ min (n - off) (bytes_step_to_decode env.raw_event_size) := by
      have := bytes_step_pos env.raw_event_size
      omega
    by_cases hi2 : i < (emu_process_sub_buffer env s off
        (min (n - off) (bytes_step_to_decode env.raw_event_size)) k).2.length
    · rw [List.get?_append hi2] at hi
      by_cases hj2 : j < (emu_process_sub_buffer env s off
          (min (n - off) (bytes_step_to_decode env.raw_event_size)) k).2.length
      · rw [List.get?_append hj2] at hj
        have hdj := emu_process_sub_buffer_get_decode env s off _ k j b o l hj
        have hri := emu_process_sub_buffer_get_raw env s off _ k i cb b o l hi
        omega
      · rw [List.get?_append_right (Nat.le_of_not_lt hj2)] at hj
        have hri := emu_process_sub_buffer_get_raw env s off _ k i cb b o l hi
        have hge := (emulate_loop_ranges_ge env n _
          (off + min (n - off) (bytes_step_to_decode env.raw_event_size)) (k + 1) _
          (List.get?_mem hj)).1 b o l rfl
        omega
    · by_cases hj2 : j < (emu_process_sub_buffer env s off
          (min (n - off) (bytes_step_to_decode env.raw_event_size)) k).2.length
      · omega
      · rw [List.get?_append_right (Nat.le_of_not_lt hi2)] at hi
        rw [List.get?_append_right (Nat.le_of_not_lt hj2)] at hj
        have hlt := emulate_loop_decode_before_raw env n _
          (off + min (n - off) (bytes_step_to_decode env.raw_event_size)) (k + 1)
          _ _ cb b o l hi hj
        omega
  · rw [dif_neg hc] at hi
    cases hi
termination_by _s off _k _i _j _cb _b _o _l => n - off
decreasing_by
  have := bytes_step_pos env.raw_event_size
  omega

/-- C4: in the non-emulated main loop, typed-event decoding of a buffer
(when it happens) completes before any raw-buffer callback receives the
same buffer and range; in the real-time emulator the decode of each
sub-buffer likewise precedes every raw-buffer callback for that
sub-buffer's range; and in the non-emulated dispatch, decoding happens
exactly when at least one decode-triggering callback is registered
(`tag_count ≠ 0`). -/
theorem C4_decode_before_raw :
    (∀ (tc : Nat) (rcbs : List Nat) (polls : List (Int × Nat)) (buf0 : Nat)
        (res0 : Int) (i j cb b o l : Nat),
      (run_main_loop tc rcbs polls buf0 res0).2.get? i = some (Act.raw cb b o l) →
      (run_main_loop tc rcbs polls buf0 res0).2.get? j = some (Act.decode b o l) →
      j < i) ∧
    (∀ (env : EmuEnv) (n : Nat) (s : CameraState) (off k i j cb b o l : Nat),
      (emulate_loop env n s off k).2.get? i = some (Act.raw cb b o l) →
      (emulate_loop env n s off k).2.get? j = some (Act.decode b o l) →
      j < i) ∧
    (∀ (tc : Nat) (rcbs : List Nat) (b n : Nat),
      (Act.decode b 0 n ∈ processBufferLive tc rcbs b n ↔ tc ≠ 0) ∧
      (tc = 0 → ∀ b2 o2 l2, Act.decode b2 o2 l2 ∉ processBufferLive tc rcbs b n)) := by
  refine ⟨?_, ?_, ?_⟩
  · intro tc rcbs polls buf0 res0 i j cb b o l hi hj
    exact run_main_loop_decode_before_raw tc rcbs polls buf0 res0 i j cb b o l hi hj
  · intro env n s off k i j cb b o l hi hj
    exact emulate_loop_decode_before_raw env n s off k i j cb b o l hi hj
  · intro tc rcbs b n
    constructor
    · constructor
      · intro hmem htc
        subst htc
        unfold processBufferLive at hmem
        rcases List.mem_append.mp hmem with h | h
        · simp at h
        · rcases List.mem_map.mp h with ⟨cb, _, hcontra⟩
          exact Act.noConfusion hcontra
      · intro htc
        unfold processBufferLive
        rw [if_pos htc]
        exact List.mem_append_left _ (List.mem_singleton.mpr rfl)
    · intro htc b2 o2 l2 hmem
      subst htc
      unfold processBufferLive at hmem
      rcases List.mem_append.mp hmem with h | h
      · simp at h
      · rcases List.mem_map.mp h with ⟨cb, _, hcontra⟩
        exact Act.noConfusion hcontra

/-- Witness for C4: one positive poll of 4 bytes with a registered decode
consumer (`tag_count = 1`) and one raw callback; the trace is
`[decode, raw]`, with the decode at index 0 before the raw at index 1. -/
theorem C4_decode_before_raw_witness :
    (run_main_loop 1 [5] [(1, 4)] 0 0).2.get? 1 = some (Act.raw 5 0 0 4) ∧
    (run_main_loop 1 [5] [(1, 4)] 0 0).2.get? 0 = some (Act.decode 0 0 4) ∧
    (0 : Nat) < 1 ∧
    Act.decode 0 0 4 ∈ processBufferLive 1 [5] 0 4 :=
  ⟨rfl, rfl,
   C4_decode_before_raw.1 1 [5] [(1, 4)] 0 0 1 0 5 0 0 4 rfl rfl,
   (C4_decode_before_raw.2.2 1 [5] 0 4).1.mpr (by decide)⟩

end OpenEB
